import Mathlib

/- Shallow embedding of the pyddup deduplication pipeline:
   pyddup/core/newcore.py, pyddup/impl/sqlite3ds.py and the abstract
   contracts in pyddup/core/abstracts.py.  Byte sequences are modelled
   as List Nat, file paths as Lean strings (sequences of characters,
   matching slicing and comparison on Python text strings). -/

/-- Decidable equality of results, needed to evaluate run outcomes on
concrete inputs. -/
instance {ε α : Type} [DecidableEq ε] [DecidableEq α] : DecidableEq (Except ε α) :=
  fun x y =>
    match x, y with
    | Except.error a, Except.error b =>
      if h : a = b then Decidable.isTrue (by rw [h])
      else Decidable.isFalse (by intro hc; cases hc; exact h rfl)
    | Except.error _, Except.ok _ => Decidable.isFalse (by intro hc; cases hc)
    | Except.ok _, Except.error _ => Decidable.isFalse (by intro hc; cases hc)
    | Except.ok a, Except.ok b =>
      if h : a = b then Decidable.isTrue (by rw [h])
      else Decidable.isFalse (by intro hc; cases hc; exact h rfl)

/-- One row of the elements table: the six-tuple written by store_entry
(pyddup/impl/sqlite3ds.py, insert_element).  A digest column is absent
(none) when that algorithm is not selected. -/
structure Row where
  sha1 : Option String
  sha256 : Option String
  md5 : Option String
  deviceid : Nat
  path : String
  fileslack : List Nat
deriving DecidableEq

/-- State of a SQLite3DataStore between calls: rows already committed to
the database file, rows inserted in the currently open transaction
(pending), the in-memory insert counter current_data_runner, and the
normalized write_data_threshold. -/
structure DSState where
  committed : List Row
  pending : List Row
  current_data_runner : Nat
  write_data_threshold : Nat
deriving DecidableEq

/-- Threshold normalization from SQLite3DataStore.__init__: a zero
threshold becomes 1000, a negative one is replaced by its negation. -/
def normalizeThreshold (t : Int) : Nat :=
  if t = 0 then 1000 else t.natAbs

/-- A freshly constructed and opened store: empty database, empty
pending transaction, counter zero (SQLite3DataStore.__init__ and open). -/
def openState (t : Int) : DSState :=
  { committed := [], pending := [], current_data_runner := 0,
    write_data_threshold := normalizeThreshold t }

/-- SQLite3DataStore.store_entry: insert the row into the open
transaction, bump the counter under the lock, and when the counter
reaches write_data_threshold commit the transaction, begin a new one and
subtract the threshold from the counter.  There is no duplicate check:
the insert is unconditional (the elements table is documented in
pyddup/core/abstracts.py as holding the six-tuples without constraints). -/
def store_entry (s : DSState) (r : Row) : DSState :=
  let pnd := s.pending ++ [r]
  let n := s.current_data_runner + 1
  if s.write_data_threshold ≤ n then
    { committed := s.committed ++ pnd, pending := [],
      current_data_runner := n - s.write_data_threshold,
      write_data_threshold := s.write_data_threshold }
  else
    { committed := s.committed, pending := pnd,
      current_data_runner := n,
      write_data_threshold := s.write_data_threshold }

/-- All rows the store has received, in insertion order. -/
def allRows (s : DSState) : List Row :=
  s.committed ++ s.pending

/-- The commit issued at the start of get_uniques_for_device: pending
rows become durable and visible to the following query.  The except
branch of the source only fires when no transaction is active, in which
case nothing is pending. -/
def commitPending (s : DSState) : DSState :=
  { committed := s.committed ++ s.pending, pending := [],
    current_data_runner := s.current_data_runner,
    write_data_threshold := s.write_data_threshold }

/-- Modelled from the spec: the grouping key of the uniqueness view
get_unique_elements_all, whose defining SQL script
(SQLite3_setup_script.sql) is not part of the sources.  The view groups
by the SHA-1 column alone when SHA-1 is enabled and falls back to the
SHA-256 column otherwise. -/
def rowKey (enable_sha1 : Bool) (r : Row) : Option String :=
  if enable_sha1 then r.sha1 else r.sha256

/-- Rows recorded for one device. -/
def deviceRows (rows : List Row) (d : Nat) : List Row :=
  rows.filter (fun r => r.deviceid = d)

/-- The distinct content-hash keys observed on one device, first
occurrence order, no duplicates. -/
def observedKeys (e : Bool) (rows : List Row) (d : Nat) : List (Option String) :=
  ((deviceRows rows d).map (rowKey e)).dedup

/-- The file paths of one content-hash group on one device. -/
def groupPaths (e : Bool) (rows : List Row) (d : Nat) (k : Option String) : List String :=
  (((deviceRows rows d).filter (fun r => rowKey e r = k)).map (fun r => r.path))

/-- Lexicographic comparison on character sequences, mirroring the
ordering the database applies to stored path text. -/
def lexLe : List Char → List Char → Bool
  | [], _ => true
  | _ :: _, [] => false
  | a :: as, b :: bs =>
    if a.toNat < b.toNat then true
    else if b.toNat < a.toNat then false
    else lexLe as bs

/-- Lexicographic order on paths. -/
def pathLe (a b : String) : Bool :=
  lexLe a.data b.data

/-- The smaller of two paths. -/
def pathMin (a b : String) : String :=
  if pathLe a b then a else b

/-- Lexicographically smallest element of a list of paths (empty list
gives the empty string; the view only ever applies it to a nonempty
group). -/
def minPath : List String → String
  | [] => ""
  | x :: xs => xs.foldl pathMin x

/-- Modelled from the spec: the view get_unique_elements_all (its SQL
script is not among the sources).  For every device and every
content-hash group recorded for it, it exposes one pair of the device id
and the lexicographically smallest file path of the group. -/
def get_unique_elements_all (e : Bool) (rows : List Row) : List (Nat × String) :=
  ((rows.map (fun r => r.deviceid)).dedup).flatMap (fun d =>
    (observedKeys e rows d).map (fun k => (d, minPath (groupPaths e rows d k))))

/-- The SELECT issued by get_uniques_for_device: paths of the view rows
of the requested device, ordered by path ascending
(query_unique_elements in pyddup/impl/sqlite3ds.py). -/
def query_unique_elements (e : Bool) (rows : List Row) (d : Nat) : List String :=
  List.insertionSort (fun a b => pathLe a b = true)
    (((get_unique_elements_all e rows).filter (fun pr => pr.1 = d)).map (fun pr => pr.2))

/-- SQLite3DataStore.get_uniques_for_device: first commit the pending
batching transaction, then run the uniques query against the database.
Returns the store state after the commit together with the yielded
paths. -/
def get_uniques_for_device (e : Bool) (s : DSState) (d : Nat) : DSState × List String :=
  (commitPending s, query_unique_elements e (commitPending s).committed d)

/- Digest engine (calculate_file_hashes, update_hashes, safe_digest in
   pyddup/core/newcore.py).  A hashlib object is modelled by the byte
   sequence fed to it so far; its hexdigest is an arbitrary function of
   that sequence, passed in as a parameter. -/

/-- The triple of in-progress hash computations: for each of sha1,
sha256 and md5 either the accumulated bytes or none when the algorithm
is not selected (map_options_to_digests / refresh_hash_pool). -/
def initHashState (sel : Bool × Bool × Bool) :
    Option (List Nat) × Option (List Nat) × Option (List Nat) :=
  ((if sel.1 then some [] else none),
   (if sel.2.1 then some [] else none),
   (if sel.2.2 then some [] else none))

/-- update_hashes: feed one chunk to every selected algorithm. -/
def update_hashes (st : Option (List Nat) × Option (List Nat) × Option (List Nat))
    (chunk : List Nat) :
    Option (List Nat) × Option (List Nat) × Option (List Nat) :=
  (st.1.map (fun l => l ++ chunk),
   st.2.1.map (fun l => l ++ chunk),
   st.2.2.map (fun l => l ++ chunk))

/-- The successive chunks produced by the bounded read loop
(iter of file.read(read_chunk_size) until the empty chunk), with
explicit fuel for structural recursion.  A chunk size of zero makes the
first read return the empty sentinel at once, ending the loop. -/
def readChunksAux : Nat → Nat → List Nat → List (List Nat)
  | 0, _, _ => []
  | fuel + 1, c, bs =>
    if c = 0 ∨ bs = [] then []
    else bs.take c :: readChunksAux fuel c (bs.drop c)

/-- All chunks read from a file with the given chunk size. -/
def readChunks (c : Nat) (bs : List Nat) : List (List Nat) :=
  readChunksAux bs.length c bs

/-- calculate_file_hashes: open the file (none means the open call
raises and the error propagates), feed it chunk by chunk to the selected
algorithms and produce the digest triple via safe_digest.  The three
digest parameters abstract the hexdigest of each algorithm as a function
of all bytes consumed. -/
def calculate_file_hashes (hsha1 hsha256 hmd5 : List Nat → String)
    (sel : Bool × Bool × Bool) (contents : Option (List Nat))
    (read_chunk_size : Nat) :
    Except Unit (Option String × Option String × Option String) :=
  match contents with
  | none => Except.error ()
  | some data =>
    let st := (readChunks read_chunk_size data).foldl update_hashes (initHashState sel)
    Except.ok (st.1.map hsha1, st.2.1.map hsha256, st.2.2.map hmd5)

/- Slack reader (read_file_slack, get_slack_block, read_slack,
   assign_read_file_slack in pyddup/core/newcore.py). -/

/-- The platform distinction made by assign_read_file_slack and
assign_get_device_loop. -/
inductive Platform
  | windows
  | linux
  | other
deriving DecidableEq

/-- Environment of one slack read: the first output line of the
filesystem-debug blocks query for the file, and the readable content of
the backing block device (none when opening the device raises). -/
structure SlackEnv where
  debugfs_line : String
  device_bytes : Option (List Nat)
deriving DecidableEq

/-- Digits of a decimal numeral accumulated left to right; fails on a
non-digit and on the empty sequence of digits. -/
def parseNatAux : List Char → Nat → Option Nat
  | [], acc => some acc
  | c :: cs, acc =>
    if c.isDigit then parseNatAux cs (acc * 10 + (c.toNat - 48)) else none

/-- The int constructor applied to one token: an optional minus sign
followed by at least one decimal digit. -/
def parseIntToken (x : List Char) : Option Int :=
  match x with
  | [] => none
  | '-' :: [] => none
  | '-' :: c :: cs => (parseNatAux (c :: cs) 0).map (fun n => -(n : Int))
  | c :: cs => (parseNatAux (c :: cs) 0).map (fun n => (n : Int))

/-- Split a character sequence on single spaces, keeping empty tokens,
like the split on a one-character separator in the source. -/
def splitTokensAux : List Char → List Char → List (List Char)
  | [], cur => [cur.reverse]
  | c :: cs, cur =>
    if c = ' ' then cur.reverse :: splitTokensAux cs []
    else splitTokensAux cs (c :: cur)

/-- All space-separated tokens of a line. -/
def splitTokens (s : List Char) : List (List Char) :=
  splitTokensAux s []

/-- get_slack_block: split the first output line of the debugfs blocks
query on spaces, skip tokens containing a newline, and parse every other
token as an integer, keeping the last one.  A token that does not parse
raises an uncaught exception, modelled as the error case. -/
def get_slack_block (env : SlackEnv) : Except Unit Int :=
  (splitTokens env.debugfs_line.data).foldl
    (fun acc x =>
      match acc with
      | Except.error e => Except.error e
      | Except.ok blocks =>
        if x.contains '\n' then Except.ok blocks
        else
          match parseIntToken x with
          | some n => Except.ok n
          | none => Except.error ())
    (Except.ok 0)

/-- read_slack: guard against a non-positive block size, then open the
device, seek to block_space times block_size and read block_size bytes.
Every failure inside the try block (unreadable device, negative seek) is
caught, logged and yields the bytes read so far, which is the empty
sequence. -/
def read_slack (env : SlackEnv) (block_space : Int) (block_size : Int) : List Nat :=
  if block_size ≤ 0 then []
  else
    match env.device_bytes with
    | none => []
    | some bs =>
      let start := block_space * block_size
      if start < 0 then []
      else (bs.drop start.toNat).take block_size.toNat

/-- read_file_slack: empty slack for a non-positive cluster size,
otherwise locate the final block via get_slack_block (whose failure
propagates) and read one cluster from the device. -/
def read_file_slack (env : SlackEnv) (slack_size : Int) : Except Unit (List Nat) :=
  if slack_size ≤ 0 then Except.ok []
  else
    match get_slack_block env with
    | Except.error e => Except.error e
    | Except.ok b => Except.ok (read_slack env b slack_size)

/-- assign_read_file_slack: on Linux the real slack reader, on Windows
and on every unrecognized platform a function that always returns the
empty byte sequence. -/
def assign_read_file_slack (p : Platform) : SlackEnv → Int → Except Unit (List Nat) :=
  match p with
  | Platform.linux => read_file_slack
  | _ => fun _ _ => Except.ok []

/- Collector (collector in pyddup/core/newcore.py). -/

/-- One directory entry met by the walk: its absolute path, whether
path.isfile holds for it, its readable content (none when opening it for
hashing raises) and the slack environment of the file. -/
structure FsFile where
  path : String
  is_regular : Bool
  contents : Option (List Nat)
  slack_env : SlackEnv
deriving DecidableEq

/-- Options record (pyddup/core/settings.py Options, the fields the core
reads), with the defaults the constructor assigns. -/
structure Options where
  enable_sha1 : Bool := false
  enable_sha256 : Bool := false
  enable_md5 : Bool := false
  create_archive : Bool := true
  archive_location : String := ""
  store_slack_space : Bool := false
  collect : Bool := true
  number_threads : Nat := 1
  unique_elements_chunk_size : Int := -1
  hash_chunk_size : Nat := 65536
deriving DecidableEq

/-- map_options_to_digests: which hashlib objects the collector gets,
as the triple of enabled flags. -/
def map_options_to_digests (o : Options) : Bool × Bool × Bool :=
  (o.enable_sha1, o.enable_sha256, o.enable_md5)

/-- One step of the collector loop body for a single directory entry:
non-regular entries are skipped silently; for a regular file the hashes
are computed (an open failure propagates), then the slack function runs
(its failure propagates) and the resulting entry is appended to the
sequence of store_entry calls.  An already failed state absorbs the rest
of the walk. -/
def collector_step (device_id : Nat) (hsha1 hsha256 hmd5 : List Nat → String)
    (sel : Bool × Bool × Bool)
    (slack_func : SlackEnv → Int → Except Unit (List Nat))
    (slack_size : Int) (chunk_size : Nat)
    (acc : Except Unit (List Row)) (f : FsFile) : Except Unit (List Row) :=
  match acc with
  | Except.error e => Except.error e
  | Except.ok entries =>
    if f.is_regular then
      match calculate_file_hashes hsha1 hsha256 hmd5 sel f.contents chunk_size with
      | Except.error e => Except.error e
      | Except.ok (h1, h256, hm) =>
        match slack_func f.slack_env slack_size with
        | Except.error e => Except.error e
        | Except.ok sl =>
          Except.ok (entries ++
            [{ sha1 := h1, sha256 := h256, md5 := hm, deviceid := device_id,
               path := f.path, fileslack := sl }])
    else Except.ok entries

/-- collector: walk the files of one device in order and produce the
sequence of entries passed to store_entry, or the first uncaught
per-file error. -/
def collector (device_id : Nat) (files : List FsFile)
    (hsha1 hsha256 hmd5 : List Nat → String) (sel : Bool × Bool × Bool)
    (slack_func : SlackEnv → Int → Except Unit (List Nat))
    (slack_size : Int) (chunk_size : Nat) : Except Unit (List Row) :=
  files.foldl (collector_step device_id hsha1 hsha256 hmd5 sel slack_func slack_size chunk_size)
    (Except.ok [])

/-- The slack function the collect phase of deduplication_pipeline hands
to every collector: it is chosen by assign_read_file_slack from the
platform alone; no field of options, in particular not
store_slack_space, takes part in the choice (newcore.py lines 447 to
458). -/
def deduplication_pipeline_slack_func (options : Options) (p : Platform) :
    SlackEnv → Int → Except Unit (List Nat) :=
  assign_read_file_slack p

/- Archiver alias computation (archiver in pyddup/core/newcore.py). -/

/-- The alias under which archiver stores a representative path: the
path with its first (length of the device source path) + 1 characters
removed.  The stored paths are absolute already, so the abspath call of
the source is the identity on them. -/
def archiver_alias (device_sourcepath : String) (target_path : String) : String :=
  String.mk (target_path.data.drop (device_sourcepath.length + 1))

/- Store lifecycle calls of the two pipelines (deduplication_pipeline
   and deduplication_pipeline_single in pyddup/core/newcore.py). -/

/-- The calls a pipeline can make on the data store. -/
inductive StoreCall
  | openCall
  | closeCall
  | abortCall
deriving DecidableEq

/-- Collecting the results of the per-device tasks of one phase: getting
each result in turn, the first raised exception propagates. -/
def runPhase (tasks : List (Except Unit Unit)) : Except Unit Unit :=
  tasks.foldl (fun acc t => match acc with | Except.error e => Except.error e | Except.ok _ => t)
    (Except.ok ())

/-- deduplication_pipeline, projected to its store lifecycle calls: open
the store, run the collect phase when options.collect holds, run the
archive phase when options.create_archive holds, close the store.  A
task failure propagates out of the function after the open call; no
handler runs, so neither close nor abort is called on that path. -/
def deduplication_pipeline_calls (options : Options)
    (collect_tasks archive_tasks : List (Except Unit Unit)) :
    List StoreCall × Except Unit Unit :=
  match (if options.collect then runPhase collect_tasks else Except.ok ()) with
  | Except.error e => ([StoreCall.openCall], Except.error e)
  | Except.ok _ =>
    match (if options.create_archive then runPhase archive_tasks else Except.ok ()) with
    | Except.error e => ([StoreCall.openCall], Except.error e)
    | Except.ok _ => ([StoreCall.openCall, StoreCall.closeCall], Except.ok ())

/-- deduplication_pipeline_single, projected to its store lifecycle
calls: it runs both phases unconditionally, sequentially, and closes on
success; a task failure propagates after the open call with neither
close nor abort. -/
def deduplication_pipeline_single_calls
    (collect_tasks archive_tasks : List (Except Unit Unit)) :
    List StoreCall × Except Unit Unit :=
  match runPhase collect_tasks with
  | Except.error e => ([StoreCall.openCall], Except.error e)
  | Except.ok _ =>
    match runPhase archive_tasks with
    | Except.error e => ([StoreCall.openCall], Except.error e)
    | Except.ok _ => ([StoreCall.openCall, StoreCall.closeCall], Except.ok ())

/- Phase ordering model (deduplication_pipeline closes and joins the
   collect thread pool before it creates the archive pool, so every
   possible event trace of a run is some interleaving of the per-device
   collector traces followed by some interleaving of the per-device
   archiver traces). -/

/-- Externally visible events of a run: store_entry calls issued by
collectors, and the provide, store_file and close calls issued by
archivers. -/
inductive PhaseEvent
  | entryStored (device : Nat) (p : String)
  | archiveProvided (device : Nat)
  | fileArchived (device : Nat) (p : String)
  | archiveClosed (device : Nat)
deriving DecidableEq

/-- The work of one device: the paths its collector stores and the
representative paths its archiver writes. -/
structure DeviceTask where
  device : Nat
  collectPaths : List String
  archivePaths : List String
deriving DecidableEq

/-- Events emitted by the collector task of one device, in order. -/
def collectorEvents (t : DeviceTask) : List PhaseEvent :=
  t.collectPaths.map (PhaseEvent.entryStored t.device)

/-- Events emitted by the archiver task of one device, in order:
provide, one store_file per representative, close. -/
def archiverEvents (t : DeviceTask) : List PhaseEvent :=
  PhaseEvent.archiveProvided t.device ::
    (t.archivePaths.map (PhaseEvent.fileArchived t.device) ++
      [PhaseEvent.archiveClosed t.device])

/-- Events that belong to the collect phase. -/
def isCollectEvent : PhaseEvent → Bool
  | PhaseEvent.entryStored _ _ => true
  | _ => false

/-- Events that belong to the archive phase (archiver operations). -/
def isArchiveEvent : PhaseEvent → Bool
  | PhaseEvent.entryStored _ _ => false
  | _ => true

/-- All shuffles of two sequences that keep the inner order of each,
with explicit fuel for structural recursion; the fuel never runs out
when it is at least the sum of the lengths. -/
def mergesAux {α : Type} : Nat → List α → List α → List (List α)
  | 0, xs, ys => [xs ++ ys]
  | _ + 1, [], ys => [ys]
  | _ + 1, xs, [] => [xs]
  | fuel + 1, x :: xs, y :: ys =>
    (mergesAux fuel xs (y :: ys)).map (fun t => x :: t) ++
      (mergesAux fuel (x :: xs) ys).map (fun t => y :: t)

/-- All shuffles of two sequences. -/
def merges {α : Type} (xs ys : List α) : List (List α) :=
  mergesAux (xs.length + ys.length) xs ys

/-- All interleavings of a family of per-task sequences: the possible
orders of concurrently running tasks on a thread pool. -/
def interleavingsAll {α : Type} (ls : List (List α)) : List (List α) :=
  ls.foldl (fun acc l => acc.flatMap (fun t => merges t l)) [[]]

/-- The possible event traces of deduplication_pipeline: whichever way
the pool schedules them, all collect-phase events precede the pool join,
and the archive pool starts afresh afterwards, so a trace is an
interleaving of the collector traces (empty when options.collect is
unset) followed by an interleaving of the archiver traces (empty when
options.create_archive is unset). -/
def pipelineTraces (options : Options) (tasks : List DeviceTask) : List (List PhaseEvent) :=
  let tcs := if options.collect then interleavingsAll (tasks.map collectorEvents) else [[]]
  let tas := if options.create_archive then interleavingsAll (tasks.map archiverEvents) else [[]]
  tcs.flatMap (fun tc => tas.map (fun ta => tc ++ ta))

/-- The single event trace of deduplication_pipeline_single: every
collector in device order, then every archiver in device order. -/
def deduplication_pipeline_single_trace (tasks : List DeviceTask) : List PhaseEvent :=
  (tasks.map collectorEvents).flatten ++ (tasks.map archiverEvents).flatten

/- Concrete sample inputs used by witnesses, counterexamples and
   code-divergence evaluations. -/

/-- A digest function standing in for a fixed hash algorithm. -/
def constDigest : List Nat → String :=
  fun _ => "d"

/-- A slack function that always succeeds with empty slack. -/
def noSlackFunc : SlackEnv → Int → Except Unit (List Nat) :=
  fun _ _ => Except.ok []

/-- A slack environment whose debugfs output does not parse. -/
def slackEnvBad : SlackEnv :=
  { debugfs_line := "zz", device_bytes := some [1, 2] }

/-- A slack environment with final block 0 on a device holding four
bytes. -/
def slackEnvGood : SlackEnv :=
  { debugfs_line := "0", device_bytes := some [7, 7, 7, 7] }

/-- A readable regular file. -/
def sampleFileGood : FsFile :=
  { path := "/mnt/sd/f1", is_regular := true, contents := some [9],
    slack_env := slackEnvGood }

/-- A regular file whose open call raises. -/
def sampleFileBad : FsFile :=
  { path := "/mnt/sd/f0", is_regular := true, contents := none,
    slack_env := slackEnvGood }

/-- Options with every default. -/
def optsBoth : Options := {}

/-- Options of a run with slack storage disabled and SHA-1 enabled. -/
def optsNoSlack : Options :=
  { store_slack_space := false, enable_sha1 := true }

/-- Two rows sharing one SHA-1 on device 1 under different paths. -/
def sampleRowA : Row :=
  { sha1 := some "h1", sha256 := none, md5 := none, deviceid := 1,
    path := "/mnt/sd/a.txt", fileslack := [] }

/-- Second row of the shared group, lexicographically larger path. -/
def sampleRowB : Row :=
  { sha1 := some "h1", sha256 := none, md5 := none, deviceid := 1,
    path := "/mnt/sd/b.txt", fileslack := [] }

/-- A store that received the two sample rows. -/
def sampleDS : DSState :=
  List.foldl store_entry (openState 1000) [sampleRowB, sampleRowA]

/-- One device task with one collected path and one representative. -/
def sampleTask : DeviceTask :=
  { device := 1, collectPaths := ["/mnt/sd/a.txt"],
    archivePaths := ["/mnt/sd/a.txt"] }

/-- The unique trace of the sample task. -/
def sampleTrace : List PhaseEvent :=
  [PhaseEvent.entryStored 1 "/mnt/sd/a.txt",
   PhaseEvent.archiveProvided 1,
   PhaseEvent.fileArchived 1 "/mnt/sd/a.txt",
   PhaseEvent.archiveClosed 1]

/- Theorems. -/

/-- C2: store lifecycle calls of the pipeline, evaluated on a successful
run and on a fatal run.  On success the store receives exactly one open
and one close and no abort, as the claim states.  On a run whose collect
task raises after open, the exception propagates out of the pipeline:
the store receives one open but zero close and zero abort calls, while
the claim demands exactly one abort; no code path of the repository ever
invokes abort.  The same holds for the single-threaded pipeline. -/
theorem c2_store_lifecycle_eval :
    (deduplication_pipeline_calls optsBoth [Except.ok ()] [Except.ok ()]).1
      = [StoreCall.openCall, StoreCall.closeCall]
    ∧ (deduplication_pipeline_calls optsBoth [Except.error ()] [Except.ok ()]).1.count
        StoreCall.openCall = 1
    ∧ (deduplication_pipeline_calls optsBoth [Except.error ()] [Except.ok ()]).1.count
        StoreCall.closeCall = 0
    ∧ (deduplication_pipeline_calls optsBoth [Except.error ()] [Except.ok ()]).1.count
        StoreCall.abortCall = 0
    ∧ (deduplication_pipeline_calls optsBoth [Except.error ()] [Except.ok ()]).2
      = Except.error ()
    ∧ (deduplication_pipeline_single_calls [Except.error ()] [Except.ok ()]).1.count
        StoreCall.abortCall = 0
    ∧ (deduplication_pipeline_single_calls [Except.error ()] [Except.ok ()]).1.count
        StoreCall.closeCall = 0 := by
  decide

/-- C3: the collect phase chooses its slack function from the platform
alone, so with store_slack_space unset, on Linux, a device with cluster
size 4 still gets nonempty slack stored in its entry. -/
theorem c3_slack_option_ignored_eval :
    optsNoSlack.store_slack_space = false
    ∧ collector 1 [sampleFileGood] constDigest constDigest constDigest
        (map_options_to_digests optsNoSlack)
        (deduplication_pipeline_slack_func optsNoSlack Platform.linux) 4 65536
      = Except.ok [{ sha1 := some "d", sha256 := none, md5 := none, deviceid := 1,
                     path := "/mnt/sd/f1", fileslack := [7, 7, 7, 7] }] := by
  constructor
  · rfl
  · rfl

/-- C4 counterexample: a walk meeting a regular file whose open call
raises aborts the collector for that device instead of logging and
skipping; the following readable file is never processed. -/
theorem c4_counterexample :
    collector 1 [sampleFileBad, sampleFileGood] constDigest constDigest constDigest
      (true, false, false) noSlackFunc 0 65536 = Except.error () := by
  rfl

/-- C5 counterexample: on Linux, with a positive cluster size, a failure
of the filesystem-debug step (an unparsable blocks line) propagates an
exception out of the slack reader instead of returning empty bytes. -/
theorem c5_counterexample :
    assign_read_file_slack Platform.linux slackEnvBad 1 = Except.error ()
    ∧ assign_read_file_slack Platform.linux slackEnvBad 1 ≠ Except.ok [] := by
  constructor
  · rfl
  · decide

/-- C9 counterexample: store_entry performs no duplicate detection; an
entry equal to an already stored one is appended a second time rather
than skipped. -/
theorem c9_counterexample :
    (allRows (store_entry (store_entry (openState 1000) sampleRowA) sampleRowA)).count
      sampleRowA = 2 := by
  decide

/-- store_entry always appends its row to the rows held by the store,
whether or not the batching threshold makes it commit. -/
theorem allRows_store_entry (s : DSState) (r : Row) :
    allRows (store_entry s r) = allRows s ++ [r] := by
  unfold allRows store_entry
  by_cases h : s.write_data_threshold ≤ s.current_data_runner + 1 <;>
    simp [h, List.append_assoc]

/-- A sequence of store_entry calls leaves the store holding exactly the
previous rows followed by the new ones, in order. -/
theorem allRows_foldl_store_entry (entries : List Row) :
    ∀ (s : DSState), allRows (List.foldl store_entry s entries) = allRows s ++ entries := by
  induction entries with
  | nil => intro s; simp
  | cons r rest ih =>
    intro s
    rw [List.foldl_cons, ih, allRows_store_entry, List.append_assoc]
    rfl

/-- C9 amended: store_entry performs no duplicate detection; every call,
duplicate or not, appends its entry as one more row and never fails. -/
theorem c9_amended_always_appends (s : DSState) (r : Row) :
    allRows (store_entry s r) = allRows s ++ [r] :=
  allRows_store_entry s r

/-- C10: get_uniques_for_device commits the pending batching transaction
first, so after any sequence of store_entry calls on a freshly opened
store, every stored entry is visible to the uniques query, for every
threshold, including runs in which the flush threshold was never
reached. -/
theorem c10_commit_before_query (t : Int) (entries : List Row) (e : Bool) (d : Nat) :
    ((get_uniques_for_device e (List.foldl store_entry (openState t) entries) d).1).committed
      = entries
    ∧ (get_uniques_for_device e (List.foldl store_entry (openState t) entries) d).2
      = query_unique_elements e entries d := by
  have hall : allRows (List.foldl store_entry (openState t) entries) = entries := by
    rw [allRows_foldl_store_entry]
    simp [allRows, openState]
  have hc : ((get_uniques_for_device e (List.foldl store_entry (openState t) entries) d).1).committed
      = allRows (List.foldl store_entry (openState t) entries) := rfl
  constructor
  · rw [hc, hall]
  · show query_unique_elements e
        (commitPending (List.foldl store_entry (openState t) entries)).committed d
      = query_unique_elements e entries d
    have : (commitPending (List.foldl store_entry (openState t) entries)).committed
        = allRows (List.foldl store_entry (openState t) entries) := rfl
    rw [this, hall]

/-- Concatenating the chunks of the bounded read loop reproduces the
file, for any positive chunk size and sufficient fuel. -/
theorem readChunksAux_flatten :
    ∀ (fuel : Nat) (c : Nat) (bs : List Nat), 0 < c → bs.length ≤ fuel →
      (readChunksAux fuel c bs).flatten = bs := by
  intro fuel
  induction fuel with
  | zero =>
    intro c bs _ hlen
    have hbs : bs = [] := List.eq_nil_of_length_eq_zero (Nat.le_zero.mp hlen)
    simp [readChunksAux, hbs]
  | succ n ih =>
    intro c bs hc hlen
    by_cases hbs : bs = []
    · simp [readChunksAux, hbs]
    · rw [readChunksAux, if_neg (by push_neg; exact ⟨by omega, hbs⟩), List.flatten_cons,
        ih c (bs.drop c) hc (by
          rw [List.length_drop]
          have hb1 : 1 ≤ bs.length := by
            cases bs with
            | nil => exact absurd rfl hbs
            | cons x xs => simp
          omega)]
      exact List.take_append_drop c bs

/-- Folding update_hashes over a chunk list appends the concatenation of
all chunks to every selected accumulator. -/
theorem foldl_update_hashes :
    ∀ (chunks : List (List Nat))
      (st : Option (List Nat) × Option (List Nat) × Option (List Nat)),
      chunks.foldl update_hashes st
        = (st.1.map (fun l => l ++ chunks.flatten),
           st.2.1.map (fun l => l ++ chunks.flatten),
           st.2.2.map (fun l => l ++ chunks.flatten)) := by
  intro chunks
  induction chunks with
  | nil =>
    intro st
    simp [update_hashes]
  | cons ch chs ih =>
    intro st
    rw [List.foldl_cons, ih]
    have hfun : ((fun l => l ++ chs.flatten) ∘ fun l : List Nat => l ++ ch)
        = fun l : List Nat => l ++ (ch ++ chs.flatten) := by
      funext l
      simp [Function.comp, List.append_assoc]
    simp [update_hashes, Option.map_map, List.flatten_cons, hfun]

/-- C8: for every file contents, every digest selection and every two
positive chunk sizes, calculate_file_hashes produces equal digest
triples. -/
theorem c8_chunk_size_irrelevance (hsha1 hsha256 hmd5 : List Nat → String)
    (sel : Bool × Bool × Bool) (data : List Nat) (c1 c2 : Nat)
    (h1 : 0 < c1) (h2 : 0 < c2) :
    calculate_file_hashes hsha1 hsha256 hmd5 sel (some data) c1
      = calculate_file_hashes hsha1 hsha256 hmd5 sel (some data) c2 := by
  show Except.ok (let st := (readChunks c1 data).foldl update_hashes (initHashState sel);
        (st.1.map hsha1, st.2.1.map hsha256, st.2.2.map hmd5))
      = Except.ok (let st := (readChunks c2 data).foldl update_hashes (initHashState sel);
        (st.1.map hsha1, st.2.1.map hsha256, st.2.2.map hmd5))
  simp only [readChunks, foldl_update_hashes,
    readChunksAux_flatten data.length c1 data h1 le_rfl,
    readChunksAux_flatten data.length c2 data h2 le_rfl]

/-- C8 witness at chunk sizes one and two on a three-byte file. -/
theorem c8_chunk_size_irrelevance_witness :
    0 < 1 ∧ 0 < 2 ∧
    calculate_file_hashes constDigest constDigest constDigest (true, true, true)
        (some [0, 1, 2]) 1
      = calculate_file_hashes constDigest constDigest constDigest (true, true, true)
        (some [0, 1, 2]) 2 :=
  ⟨Nat.one_pos, Nat.zero_lt_two,
    c8_chunk_size_irrelevance constDigest constDigest constDigest (true, true, true)
      [0, 1, 2] 1 2 Nat.one_pos Nat.zero_lt_two⟩

/-- The characters of an appended string are the appended character
lists. -/
theorem str_data_append : ∀ (a b : String), (a ++ b).data = a.data ++ b.data
  | ⟨_⟩, ⟨_⟩ => rfl

/-- Rebuilding a string from its own characters gives it back. -/
theorem str_mk_data : ∀ (s : String), String.mk s.data = s
  | ⟨_⟩ => rfl

/-- The length of a string is the length of its character list. -/
theorem str_length : ∀ (s : String), s.length = s.data.length
  | ⟨_⟩ => rfl

/-- C7: for every representative path of the form mount slash rest on a
device whose mount path is absolute and whose remainder does not start
with a separator, the alias computed by archiver equals rest, the path
with the first mount-length-plus-one characters removed, and the alias
does not begin with the device root. -/
theorem c7_alias_strips_root (mount rest : String)
    (h1 : mount.data.head? = some '/') (h2 : rest.data.head? ≠ some '/') :
    archiver_alias mount (mount ++ "/" ++ rest) = rest
    ∧ (archiver_alias mount (mount ++ "/" ++ rest)).data.take mount.data.length
      ≠ mount.data := by
  have hdata : (mount ++ "/" ++ rest).data = (mount.data ++ ['/']) ++ rest.data := by
    rw [str_data_append, str_data_append]
  have hlen : mount.length + 1 = (mount.data ++ ['/']).length := by
    rw [List.length_append, str_length]
    simp
  have halias : archiver_alias mount (mount ++ "/" ++ rest) = rest := by
    unfold archiver_alias
    rw [hdata, hlen, List.drop_left, str_mk_data]
  refine ⟨halias, ?_⟩
  rw [halias]
  cases hm : mount.data with
  | nil => rw [hm] at h1; cases h1
  | cons c m =>
    have hc : c = '/' := by
      rw [hm] at h1
      simpa using h1
    cases hr : rest.data with
    | nil =>
      simp
    | cons r rs =>
      have hrne : r ≠ '/' := by
        intro hre
        rw [hr, hre] at h2
        exact h2 rfl
      simp only [List.length_cons, List.take_succ_cons]
      intro hcontra
      have : r = c := (List.cons.injEq _ _ _ _).mp hcontra |>.1
      rw [hc] at this
      exact hrne this

/-- C7 witness at a concrete mount path and representative. -/
theorem c7_alias_strips_root_witness :
    archiver_alias "/mnt/sd" ("/mnt/sd" ++ "/" ++ "DCIM/img.jpg") = "DCIM/img.jpg"
    ∧ (archiver_alias "/mnt/sd" ("/mnt/sd" ++ "/" ++ "DCIM/img.jpg")).data.take
        ("/mnt/sd" : String).data.length ≠ ("/mnt/sd" : String).data :=
  c7_alias_strips_root "/mnt/sd" "DCIM/img.jpg" (by decide) (by decide)

/-- C5 amended: the slack reader returns empty bytes without exception
when the cluster size is non-positive or the platform is not Linux, and
a failed raw device read is caught and still yields empty bytes; but a
failure of the filesystem-debug step (get_slack_block) propagates an
exception to the caller, which can only happen on Linux with a positive
cluster size. -/
theorem c5_amended_slack_contract (p : Platform) (env : SlackEnv) (n : Int) :
    (n ≤ 0 → assign_read_file_slack p env n = Except.ok [])
    ∧ (p ≠ Platform.linux → assign_read_file_slack p env n = Except.ok [])
    ∧ (env.device_bytes = none →
        ∀ r, assign_read_file_slack p env n = Except.ok r → r = [])
    ∧ (∀ e, assign_read_file_slack p env n = Except.error e →
        0 < n ∧ p = Platform.linux ∧ get_slack_block env = Except.error e) := by
  cases p with
  | windows =>
    refine ⟨fun _ => rfl, fun _ => rfl, fun _ r hr => ?_, fun e he => ?_⟩
    · cases hr
      rfl
    · cases he
  | other =>
    refine ⟨fun _ => rfl, fun _ => rfl, fun _ r hr => ?_, fun e he => ?_⟩
    · cases hr
      rfl
    · cases he
  | linux =>
    have hassign : assign_read_file_slack Platform.linux = read_file_slack := rfl
    rw [hassign]
    by_cases hn : n ≤ 0
    · refine ⟨fun _ => ?_, fun hp => absurd rfl hp, fun _ r hr => ?_, fun e he => ?_⟩
      · unfold read_file_slack
        rw [if_pos hn]
      · unfold read_file_slack at hr
        rw [if_pos hn] at hr
        cases hr
        rfl
      · unfold read_file_slack at he
        rw [if_pos hn] at he
        cases he
    · refine ⟨fun hc => absurd hc hn, fun hp => absurd rfl hp, fun hdev r hr => ?_,
        fun e he => ?_⟩
      · unfold read_file_slack at hr
        rw [if_neg hn] at hr
        cases hgs : get_slack_block env with
        | error e0 => rw [hgs] at hr; cases hr
        | ok b =>
          rw [hgs] at hr
          cases hr
          unfold read_slack
          rw [hdev]
          by_cases hb : n ≤ 0
          · rw [if_pos hb]
          · rw [if_neg hb]
      · unfold read_file_slack at he
        rw [if_neg hn] at he
        cases hgs : get_slack_block env with
        | error e0 =>
          exact ⟨by omega, rfl, rfl⟩
        | ok b => rw [hgs] at he; cases he

/-- C5 amended witness: a non-Linux platform call returns empty bytes. -/
theorem c5_amended_slack_contract_witness :
    Platform.windows ≠ Platform.linux
    ∧ assign_read_file_slack Platform.windows slackEnvBad 1 = Except.ok [] :=
  ⟨by decide, (c5_amended_slack_contract Platform.windows slackEnvBad 1).2.1 (by decide)⟩

/-- Once the collector state carries an error, the rest of the walk is
absorbed. -/
theorem collector_foldl_error (d : Nat) (hsha1 hsha256 hmd5 : List Nat → String)
    (sel : Bool × Bool × Bool) (slack_func : SlackEnv → Int → Except Unit (List Nat))
    (ss : Int) (cs : Nat) (l : List FsFile) (e : Unit) :
    List.foldl (collector_step d hsha1 hsha256 hmd5 sel slack_func ss cs)
      (Except.error e) l = Except.error e := by
  induction l with
  | nil => rfl
  | cons f fs ih =>
    rw [List.foldl_cons]
    exact ih

/-- A stretch of the walk in which every regular file is readable and
every slack call succeeds keeps the collector in a success state. -/
theorem collector_foldl_ok (d : Nat) (hsha1 hsha256 hmd5 : List Nat → String)
    (sel : Bool × Bool × Bool) (slack_func : SlackEnv → Int → Except Unit (List Nat))
    (ss : Int) (cs : Nat) :
    ∀ (pre : List FsFile) (acc : List Row),
      (∀ f ∈ pre, f.is_regular = true → f.contents ≠ none) →
      (∀ f ∈ pre, ∃ r, slack_func f.slack_env ss = Except.ok r) →
      ∃ es, List.foldl (collector_step d hsha1 hsha256 hmd5 sel slack_func ss cs)
        (Except.ok acc) pre = Except.ok es := by
  intro pre
  induction pre with
  | nil => exact fun acc _ _ => ⟨acc, rfl⟩
  | cons f fs ih =>
    intro acc hread hslack
    rw [List.foldl_cons]
    by_cases hreg : f.is_regular = true
    · have hcne : f.contents ≠ none := hread f (List.mem_cons_self f fs) hreg
      obtain ⟨data, hdata⟩ := Option.ne_none_iff_exists'.mp hcne
      obtain ⟨r, hr⟩ := hslack f (List.mem_cons_self f fs)
      have hstep : ∃ row, collector_step d hsha1 hsha256 hmd5 sel slack_func ss cs
          (Except.ok acc) f = Except.ok (acc ++ [row]) := by
        simp only [collector_step, hreg, if_true]
        rw [hdata]
        simp only [calculate_file_hashes]
        rw [hr]
        exact ⟨_, rfl⟩
      obtain ⟨row, hrow⟩ := hstep
      rw [hrow]
      exact ih _ (fun g hg hgr => hread g (List.mem_cons_of_mem f hg) hgr)
        (fun g hg => hslack g (List.mem_cons_of_mem f hg))
    · have hstep : collector_step d hsha1 hsha256 hmd5 sel slack_func ss cs
          (Except.ok acc) f = Except.ok acc := by
        simp only [collector_step, hreg, if_false, Bool.false_eq_true, if_neg,
          reduceIte]
      rw [hstep]
      exact ih acc (fun g hg hgr => hread g (List.mem_cons_of_mem f hg) hgr)
        (fun g hg => hslack g (List.mem_cons_of_mem f hg))

/-- C4 amended: non-regular entries are skipped silently, but when the
walk reaches a regular file whose open call raises, the exception
propagates out of the collector and aborts the walk for that device; no
following file is processed. -/
theorem c4_amended_open_error_aborts (d : Nat) (hsha1 hsha256 hmd5 : List Nat → String)
    (sel : Bool × Bool × Bool) (slack_func : SlackEnv → Int → Except Unit (List Nat))
    (ss : Int) (cs : Nat) (pre post : List FsFile) (bad : FsFile)
    (hreg : bad.is_regular = true) (hopen : bad.contents = none)
    (hpre_read : ∀ f ∈ pre, f.is_regular = true → f.contents ≠ none)
    (hpre_slack : ∀ f ∈ pre, ∃ r, slack_func f.slack_env ss = Except.ok r) :
    collector d (pre ++ bad :: post) hsha1 hsha256 hmd5 sel slack_func ss cs
      = Except.error () := by
  unfold collector
  rw [List.foldl_append]
  obtain ⟨es, hes⟩ := collector_foldl_ok d hsha1 hsha256 hmd5 sel slack_func ss cs
    pre [] hpre_read hpre_slack
  rw [hes, List.foldl_cons]
  have hstep : collector_step d hsha1 hsha256 hmd5 sel slack_func ss cs
      (Except.ok es) bad = Except.error () := by
    simp only [collector_step, hreg, if_true]
    rw [hopen]
    simp only [calculate_file_hashes]
  rw [hstep]
  exact collector_foldl_error d hsha1 hsha256 hmd5 sel slack_func ss cs post ()

/-- C4 amended witness: one readable file followed by one unreadable
regular file makes the collector fail. -/
theorem c4_amended_open_error_aborts_witness :
    sampleFileBad.contents = none
    ∧ collector 1 ([sampleFileGood] ++ sampleFileBad :: []) constDigest constDigest
        constDigest (true, false, false) noSlackFunc 0 65536 = Except.error () :=
  ⟨rfl,
    c4_amended_open_error_aborts 1 constDigest constDigest constDigest (true, false, false)
      noSlackFunc 0 65536 [sampleFileGood] [] sampleFileBad rfl rfl
      (by
        intro f hf hfr
        rw [List.mem_singleton] at hf
        rw [hf]
        decide)
      (by
        intro f hf
        exact ⟨[], rfl⟩)⟩

/-- Filtering a block of view rows that all carry the device id d2 by
the device id d keeps the whole block when the ids agree and nothing
otherwise. -/
theorem filter_fst_eq {β : Type} (d2 d : Nat) (ks : List β) (m : β → String) :
    ((ks.map (fun k => (d2, m k))).filter (fun pr => pr.1 = d))
      = if d2 = d then ks.map (fun k => (d2, m k)) else [] := by
  rw [List.filter_map]
  by_cases h : d2 = d
  · subst h
    rw [if_pos rfl]
    have hp : ((fun pr : Nat × String => decide (pr.1 = d2)) ∘ (fun k => (d2, m k)))
        = fun _ => true := by
      funext k
      simp
    rw [hp, List.filter_true]
  · rw [if_neg h]
    have hp : ((fun pr : Nat × String => decide (pr.1 = d)) ∘ (fun k => (d2, m k)))
        = fun _ => false := by
      funext k
      simp [h]
    rw [hp, List.filter_false, List.map_nil]

/-- Concatenating per-device blocks over a duplicate-free device list
and keeping only the block of d yields exactly that block when d occurs. -/
theorem flatMap_if_eq {β : Type} (devs : List Nat) (d : Nat) (B : Nat → List β)
    (hnd : devs.Nodup) :
    (devs.flatMap (fun d2 => if d2 = d then B d2 else []))
      = if d ∈ devs then B d else [] := by
  induction devs with
  | nil => simp
  | cons a l ih =>
    rw [List.flatMap_cons]
    rcases List.nodup_cons.mp hnd with ⟨ha, hl⟩
    by_cases had : a = d
    · subst had
      have hrest : l.flatMap (fun d2 => if d2 = a then B d2 else []) = [] := by
        rw [List.flatMap_eq_nil_iff]
        intro x hx
        rw [if_neg (fun hxa : x = a => ha (by rw [hxa] at hx; exact hx))]
      rw [if_pos rfl, hrest, List.append_nil, if_pos (List.mem_cons_self a l)]
    · rw [if_neg had, List.nil_append, ih hl]
      by_cases hd : d ∈ l
      · rw [if_pos hd, if_pos (List.mem_cons_of_mem a hd)]
      · rw [if_neg hd, if_neg (by
          intro hmem
          rcases List.mem_cons.mp hmem with h | h
          · exact had h.symm
          · exact hd h)]

/-- The input the uniques query sorts is exactly one minimal path per
observed content-hash group of the requested device. -/
theorem query_input_eq (e : Bool) (rows : List Row) (d : Nat) :
    ((get_unique_elements_all e rows).filter (fun pr => pr.1 = d)).map (fun pr => pr.2)
      = (observedKeys e rows d).map (fun k => minPath (groupPaths e rows d k)) := by
  unfold get_unique_elements_all
  rw [List.filter_flatMap]
  have hblocks : ∀ d2 ∈ (rows.map (fun r => r.deviceid)).dedup,
      ((observedKeys e rows d2).map
          (fun k => (d2, minPath (groupPaths e rows d2 k)))).filter (fun pr => pr.1 = d)
        = if d2 = d then (observedKeys e rows d2).map
            (fun k => (d2, minPath (groupPaths e rows d2 k))) else [] :=
    fun d2 _ => filter_fst_eq d2 d _ _
  rw [List.flatMap_congr hblocks]
  rw [flatMap_if_eq _ d _ (List.nodup_dedup _)]
  by_cases hd : d ∈ (rows.map (fun r => r.deviceid)).dedup
  · rw [if_pos hd, List.map_map]
    rfl
  · rw [if_neg hd]
    have hdr : deviceRows rows d = [] := by
      unfold deviceRows
      rw [List.filter_eq_nil_iff]
      intro r hr hrd
      rw [List.mem_dedup] at hd
      simp only [decide_eq_true_eq] at hrd
      exact hd (List.mem_map.mpr ⟨r, hr, hrd⟩)
    unfold observedKeys
    rw [hdr]
    rfl


/-- The lexicographic comparison is reflexive. -/
theorem lexLe_refl : ∀ (l : List Char), lexLe l l = true
  | [] => rfl
  | a :: as => by
    show (if a.toNat < a.toNat then true
      else if a.toNat < a.toNat then false else lexLe as as) = true
    rw [if_neg (by omega), if_neg (by omega)]
    exact lexLe_refl as

/-- The lexicographic comparison is total. -/
theorem lexLe_total : ∀ (l1 l2 : List Char), lexLe l1 l2 = true ∨ lexLe l2 l1 = true
  | [], _ => Or.inl rfl
  | _ :: _, [] => Or.inr rfl
  | a :: as, b :: bs => by
    show (if a.toNat < b.toNat then true
        else if b.toNat < a.toNat then false else lexLe as bs) = true
      ∨ (if b.toNat < a.toNat then true
        else if a.toNat < b.toNat then false else lexLe bs as) = true
    by_cases hab : a.toNat < b.toNat
    · exact Or.inl (by rw [if_pos hab])
    · by_cases hba : b.toNat < a.toNat
      · exact Or.inr (by rw [if_pos hba])
      · rcases lexLe_total as bs with h | h
        · exact Or.inl (by rw [if_neg hab, if_neg hba]; exact h)
        · exact Or.inr (by rw [if_neg hba, if_neg hab]; exact h)

/-- The lexicographic comparison is transitive. -/
theorem lexLe_trans : ∀ (l1 l2 l3 : List Char),
    lexLe l1 l2 = true → lexLe l2 l3 = true → lexLe l1 l3 = true
  | [], _, _ => fun _ _ => rfl
  | a :: as, [], _ => fun h _ => by cases h
  | _ :: _, _ :: _, [] => fun _ h => by cases h
  | a :: as, b :: bs, c :: cs => by
    intro h1 h2
    rw [show lexLe (a :: as) (b :: bs)
        = (if a.toNat < b.toNat then true
          else if b.toNat < a.toNat then false else lexLe as bs) from rfl] at h1
    rw [show lexLe (b :: bs) (c :: cs)
        = (if b.toNat < c.toNat then true
          else if c.toNat < b.toNat then false else lexLe bs cs) from rfl] at h2
    show (if a.toNat < c.toNat then true
      else if c.toNat < a.toNat then false else lexLe as cs) = true
    by_cases hab : a.toNat < b.toNat
    · by_cases hbc : b.toNat < c.toNat
      · rw [if_pos (by omega)]
      · by_cases hcb : c.toNat < b.toNat
        · rw [if_neg hbc, if_pos hcb] at h2
          cases h2
        · rw [if_pos (by omega)]
    · by_cases hba : b.toNat < a.toNat
      · rw [if_neg hab, if_pos hba] at h1
        cases h1
      · by_cases hbc : b.toNat < c.toNat
        · rw [if_pos (by omega)]
        · by_cases hcb : c.toNat < b.toNat
          · rw [if_neg hbc, if_pos hcb] at h2
            cases h2
          · rw [if_neg hab, if_neg hba] at h1
            rw [if_neg hbc, if_neg hcb] at h2
            rw [if_neg (by omega), if_neg (by omega)]
            exact lexLe_trans as bs cs h1 h2

/-- Path comparison is reflexive. -/
theorem pathLe_refl (a : String) : pathLe a a = true :=
  lexLe_refl a.data

/-- Path comparison is total. -/
theorem pathLe_total (a b : String) : pathLe a b = true ∨ pathLe b a = true :=
  lexLe_total a.data b.data

/-- Path comparison is transitive. -/
theorem pathLe_trans (a b c : String) :
    pathLe a b = true → pathLe b c = true → pathLe a c = true :=
  lexLe_trans a.data b.data c.data

/-- The binary path minimum is one of its arguments. -/
theorem pathMin_choice (a b : String) : pathMin a b = a ∨ pathMin a b = b := by
  unfold pathMin
  by_cases h : pathLe a b = true
  · exact Or.inl (by rw [if_pos h])
  · exact Or.inr (by rw [if_neg h])

/-- The binary path minimum is below its left argument. -/
theorem pathMin_le_left (a b : String) : pathLe (pathMin a b) a = true := by
  unfold pathMin
  by_cases h : pathLe a b = true
  · rw [if_pos h]
    exact pathLe_refl a
  · rw [if_neg h]
    rcases pathLe_total a b with h2 | h2
    · exact absurd h2 h
    · exact h2

/-- The binary path minimum is below its right argument. -/
theorem pathMin_le_right (a b : String) : pathLe (pathMin a b) b = true := by
  unfold pathMin
  by_cases h : pathLe a b = true
  · rw [if_pos h]
    exact h
  · rw [if_neg h]
    exact pathLe_refl b

/-- A left fold of the path minimum never exceeds its seed. -/
theorem foldl_pathMin_le_init (xs : List String) :
    ∀ (x : String), pathLe (xs.foldl pathMin x) x = true := by
  induction xs with
  | nil => exact fun x => pathLe_refl x
  | cons y ys ih =>
    intro x
    rw [List.foldl_cons]
    exact pathLe_trans _ _ _ (ih (pathMin x y)) (pathMin_le_left x y)

/-- A left fold of the path minimum never exceeds any list element. -/
theorem foldl_pathMin_le_mem (xs : List String) :
    ∀ (x y : String), y ∈ xs → pathLe (xs.foldl pathMin x) y = true := by
  induction xs with
  | nil =>
    intro x y hy
    cases hy
  | cons z zs ih =>
    intro x y hy
    rw [List.foldl_cons]
    rcases List.mem_cons.mp hy with h | h
    · subst h
      exact pathLe_trans _ _ _ (foldl_pathMin_le_init zs (pathMin x y))
        (pathMin_le_right x y)
    · exact ih (pathMin x z) y h

/-- A left fold of the path minimum returns the seed or a list element. -/
theorem foldl_pathMin_mem (xs : List String) :
    ∀ (x : String), xs.foldl pathMin x = x ∨ xs.foldl pathMin x ∈ xs := by
  induction xs with
  | nil => exact fun x => Or.inl rfl
  | cons z zs ih =>
    intro x
    rw [List.foldl_cons]
    rcases ih (pathMin x z) with h | h
    · rcases pathMin_choice x z with hm | hm
      · exact Or.inl (h.trans hm)
      · exact Or.inr (by rw [h, hm]; exact List.mem_cons_self z zs)
    · exact Or.inr (List.mem_cons_of_mem z h)

/-- The minimum of a nonempty path list is one of its elements. -/
theorem minPath_mem : ∀ (l : List String), l ≠ [] → minPath l ∈ l
  | [], h => absurd rfl h
  | x :: xs, _ => by
    show xs.foldl pathMin x ∈ x :: xs
    rcases foldl_pathMin_mem xs x with h | h
    · rw [h]
      exact List.mem_cons_self x xs
    · exact List.mem_cons_of_mem x h

/-- The minimum of a path list is a lexicographic lower bound of its
elements. -/
theorem minPath_le (l : List String) (p : String) (hp : p ∈ l) :
    pathLe (minPath l) p = true := by
  cases l with
  | nil => cases hp
  | cons x xs =>
    show pathLe (xs.foldl pathMin x) p = true
    rcases List.mem_cons.mp hp with h | h
    · rw [h]
      exact foldl_pathMin_le_init xs x
    · exact foldl_pathMin_le_mem xs x p h

/-- Every observed key names a nonempty group. -/
theorem groupPaths_ne_nil (e : Bool) (rows : List Row) (d : Nat) (k : Option String)
    (hk : k ∈ observedKeys e rows d) : groupPaths e rows d k ≠ [] := by
  unfold observedKeys at hk
  rw [List.mem_dedup] at hk
  obtain ⟨r, hr, hrk⟩ := List.mem_map.mp hk
  unfold groupPaths
  intro hnil
  rw [List.map_eq_nil_iff] at hnil
  have hmem : r ∈ (deviceRows rows d).filter (fun r2 => rowKey e r2 = k) := by
    rw [List.mem_filter]
    exact ⟨hr, by simp [hrk]⟩
  rw [hnil] at hmem
  cases hmem

/-- C1: for every device, the uniques query yields exactly one
representative per observed content-hash group (the groups are listed
without duplication and the output is a permutation of one minimum per
group), the representative of each group is the lexicographically
smallest path in it, and the yielded sequence is sorted ascending. -/
theorem c1_unique_representative (e : Bool) (s : DSState) (d : Nat) :
    (observedKeys e (allRows s) d).Nodup
    ∧ ((get_uniques_for_device e s d).2).Perm
        ((observedKeys e (allRows s) d).map
          (fun k => minPath (groupPaths e (allRows s) d k)))
    ∧ List.Sorted (fun a b => pathLe a b = true) ((get_uniques_for_device e s d).2)
    ∧ ∀ k ∈ observedKeys e (allRows s) d,
        minPath (groupPaths e (allRows s) d k) ∈ groupPaths e (allRows s) d k
        ∧ ∀ p ∈ groupPaths e (allRows s) d k,
            pathLe (minPath (groupPaths e (allRows s) d k)) p = true := by
  have hout : (get_uniques_for_device e s d).2
      = query_unique_elements e (allRows s) d := rfl
  haveI htot : IsTotal String (fun a b => pathLe a b = true) := ⟨pathLe_total⟩
  haveI htrans : IsTrans String (fun a b => pathLe a b = true) := ⟨pathLe_trans⟩
  refine ⟨List.nodup_dedup _, ?_, ?_, ?_⟩
  · rw [hout]
    unfold query_unique_elements
    rw [query_input_eq]
    exact List.perm_insertionSort _ _
  · rw [hout]
    unfold query_unique_elements
    exact List.sorted_insertionSort _ _
  · intro k hk
    exact ⟨minPath_mem _ (groupPaths_ne_nil e (allRows s) d k hk),
      fun p hp => minPath_le _ p hp⟩

/-- C1 witness: on the sample store the query returns the single
lexicographically smallest representative, sorted. -/
theorem c1_unique_representative_witness :
    (get_uniques_for_device true sampleDS 1).2 = ["/mnt/sd/a.txt"]
    ∧ List.Sorted (fun a b => pathLe a b = true)
        ((get_uniques_for_device true sampleDS 1).2) :=
  ⟨by decide, (c1_unique_representative true sampleDS 1).2.2.1⟩

/-- Every shuffle of two sequences whose elements satisfy a predicate
consists of elements satisfying it. -/
theorem mergesAux_all {α : Type} (P : α → Prop) :
    ∀ (fuel : Nat) (xs ys : List α), (∀ a ∈ xs, P a) → (∀ a ∈ ys, P a) →
      ∀ tr ∈ mergesAux fuel xs ys, ∀ a ∈ tr, P a := by
  intro fuel
  induction fuel with
  | zero =>
    intro xs ys hx hy tr htr a ha
    rw [show mergesAux 0 xs ys = [xs ++ ys] from rfl, List.mem_singleton] at htr
    subst htr
    rcases List.mem_append.mp ha with h | h
    · exact hx a h
    · exact hy a h
  | succ n ih =>
    intro xs ys hx hy tr htr a ha
    cases xs with
    | nil =>
      simp only [mergesAux, List.mem_singleton] at htr
      subst htr
      exact hy a ha
    | cons x xs2 =>
      cases ys with
      | nil =>
        simp only [mergesAux, List.mem_singleton] at htr
        subst htr
        exact hx a ha
      | cons y ys2 =>
        simp only [mergesAux] at htr
        rcases List.mem_append.mp htr with h | h
        · obtain ⟨t, htm, hteq⟩ := List.mem_map.mp h
          subst hteq
          rcases List.mem_cons.mp ha with h2 | h2
          · subst h2
            exact hx a (List.mem_cons_self a xs2)
          · exact ih xs2 (y :: ys2) (fun b hb => hx b (List.mem_cons_of_mem x hb)) hy
              t htm a h2
        · obtain ⟨t, htm, hteq⟩ := List.mem_map.mp h
          subst hteq
          rcases List.mem_cons.mp ha with h2 | h2
          · subst h2
            exact hy a (List.mem_cons_self a ys2)
          · exact ih (x :: xs2) ys2 hx (fun b hb => hy b (List.mem_cons_of_mem y hb))
              t htm a h2

/-- Every interleaving of per-task sequences whose elements satisfy a
predicate consists of elements satisfying it. -/
theorem interleavingsAll_all {α : Type} (P : α → Prop) :
    ∀ (ls : List (List α)) (acc : List (List α)),
      (∀ t ∈ acc, ∀ a ∈ t, P a) → (∀ l ∈ ls, ∀ a ∈ l, P a) →
      ∀ tr ∈ ls.foldl (fun a2 l => a2.flatMap (fun t => merges t l)) acc,
        ∀ a ∈ tr, P a := by
  intro ls
  induction ls with
  | nil => exact fun acc hacc _ tr htr => hacc tr htr
  | cons l ls2 ih =>
    intro acc hacc hls tr htr
    rw [List.foldl_cons] at htr
    refine ih _ ?_ (fun l2 hl2 => hls l2 (List.mem_cons_of_mem l hl2)) tr htr
    intro t ht
    obtain ⟨t0, ht0, htm⟩ := List.mem_flatMap.mp ht
    exact mergesAux_all P _ t0 l (hacc t0 ht0) (hls l (List.mem_cons_self l ls2)) t htm

/-- Collector events are collect-phase events. -/
theorem collectorEvents_collect (t : DeviceTask) :
    ∀ a ∈ collectorEvents t, isCollectEvent a = true := by
  intro a ha
  obtain ⟨p, _, hpe⟩ := List.mem_map.mp ha
  rw [← hpe]
  rfl

/-- Archiver events are archive-phase events. -/
theorem archiverEvents_archive (t : DeviceTask) :
    ∀ a ∈ archiverEvents t, isArchiveEvent a = true := by
  intro a ha
  unfold archiverEvents at ha
  rcases List.mem_cons.mp ha with h | h
  · rw [h]
    rfl
  · rcases List.mem_append.mp h with h2 | h2
    · obtain ⟨p, _, hpe⟩ := List.mem_map.mp h2
      rw [← hpe]
      rfl
    · rw [List.mem_singleton.mp h2]
      rfl

/-- No event belongs to both phases. -/
theorem phase_exclusive (a : PhaseEvent) :
    isArchiveEvent a = true → isCollectEvent a = true → False := by
  cases a <;> intro h1 h2 <;> cases h1 <;> cases h2

/-- In a trace that is a run of collect-phase events followed by a run
of archive-phase events, every archive event sits strictly after every
collect event. -/
theorem append_phase_barrier (tc ta : List PhaseEvent)
    (hc : ∀ a ∈ tc, isCollectEvent a = true) (ha : ∀ a ∈ ta, isArchiveEvent a = true)
    (i j : Nat) (hi : i < (tc ++ ta).length) (hj : j < (tc ++ ta).length)
    (harc : isArchiveEvent ((tc ++ ta).get ⟨i, hi⟩) = true)
    (hcol : isCollectEvent ((tc ++ ta).get ⟨j, hj⟩) = true) : j < i := by
  have hige : tc.length ≤ i := by
    by_contra hlt
    push_neg at hlt
    have hget : (tc ++ ta).get ⟨i, hi⟩ = tc.get ⟨i, hlt⟩ := by
      rw [List.get_eq_getElem, List.get_eq_getElem]
      exact List.getElem_append_left hlt
    rw [hget] at harc
    exact phase_exclusive _ harc (hc _ (List.get_mem tc i hlt))
  have hjlt : j < tc.length := by
    by_contra hge
    push_neg at hge
    have hjlt2 : j - tc.length < ta.length := by
      rw [List.length_append] at hj
      omega
    have hget : (tc ++ ta).get ⟨j, hj⟩ = ta.get ⟨j - tc.length, hjlt2⟩ := by
      rw [List.get_eq_getElem, List.get_eq_getElem]
      exact List.getElem_append_right hge
    rw [hget] at hcol
    exact phase_exclusive _ (ha _ (List.get_mem ta (j - tc.length) hjlt2)) hcol
  omega

/-- C6: in both scheduling models no archiver operation of any device
appears in a run trace before every collect-phase event of every device;
the phases never interleave.  In the worker-pool model this holds for
every interleaving the pools can produce, because the collect pool is
joined before the archive pool is created; in the single-threaded model
it holds for the unique sequential trace. -/
theorem c6_phase_barrier :
    (∀ (options : Options) (tasks : List DeviceTask) (tr : List PhaseEvent),
      tr ∈ pipelineTraces options tasks →
      ∀ (i j : Nat) (hi : i < tr.length) (hj : j < tr.length),
        isArchiveEvent (tr.get ⟨i, hi⟩) = true →
        isCollectEvent (tr.get ⟨j, hj⟩) = true → j < i)
    ∧ (∀ (tasks : List DeviceTask) (i j : Nat)
        (hi : i < (deduplication_pipeline_single_trace tasks).length)
        (hj : j < (deduplication_pipeline_single_trace tasks).length),
        isArchiveEvent ((deduplication_pipeline_single_trace tasks).get ⟨i, hi⟩) = true →
        isCollectEvent ((deduplication_pipeline_single_trace tasks).get ⟨j, hj⟩) = true →
        j < i) := by
  constructor
  · intro options tasks tr htr i j hi hj harc hcol
    unfold pipelineTraces at htr
    obtain ⟨tc, htc, htr2⟩ := List.mem_flatMap.mp htr
    obtain ⟨ta, hta, htreq⟩ := List.mem_map.mp htr2
    subst htreq
    have hcall : ∀ a ∈ tc, isCollectEvent a = true := by
      by_cases hcol2 : options.collect
      · rw [if_pos hcol2] at htc
        exact interleavingsAll_all _ _ [[]]
          (by intro t ht a ha; rw [List.mem_singleton.mp ht] at ha; cases ha)
          (by
            intro l hl
            obtain ⟨t0, _, hteq⟩ := List.mem_map.mp hl
            rw [← hteq]
            exact collectorEvents_collect t0)
          tc htc
      · rw [if_neg hcol2, List.mem_singleton] at htc
        subst htc
        intro a ha
        cases ha
    have haall : ∀ a ∈ ta, isArchiveEvent a = true := by
      by_cases harch : options.create_archive
      · rw [if_pos harch] at hta
        exact interleavingsAll_all _ _ [[]]
          (by intro t ht a ha; rw [List.mem_singleton.mp ht] at ha; cases ha)
          (by
            intro l hl
            obtain ⟨t0, _, hteq⟩ := List.mem_map.mp hl
            rw [← hteq]
            exact archiverEvents_archive t0)
          ta hta
      · rw [if_neg harch, List.mem_singleton] at hta
        subst hta
        intro a ha
        cases ha
    exact append_phase_barrier tc ta hcall haall i j hi hj harc hcol
  · intro tasks i j hi hj harc hcol
    refine append_phase_barrier _ _ ?_ ?_ i j hi hj harc hcol
    · intro a ha
      obtain ⟨l, hl, hal⟩ := List.mem_flatten.mp ha
      obtain ⟨t0, _, hteq⟩ := List.mem_map.mp hl
      rw [← hteq] at hal
      exact collectorEvents_collect t0 a hal
    · intro a ha
      obtain ⟨l, hl, hal⟩ := List.mem_flatten.mp ha
      obtain ⟨t0, _, hteq⟩ := List.mem_map.mp hl
      rw [← hteq] at hal
      exact archiverEvents_archive t0 a hal

/-- C6 witness: the sample trace of one device is a pipeline trace, its
archive operation at position one follows the collect event at position
zero. -/
theorem c6_phase_barrier_witness :
    sampleTrace ∈ pipelineTraces optsBoth [sampleTask] ∧ (0 : Nat) < 1 :=
  ⟨by decide,
    c6_phase_barrier.1 optsBoth [sampleTask] sampleTrace (by decide) 1 0
      (by decide) (by decide) (by decide) (by decide)⟩
